import Mathlib

/-!
Shallow embedding of the resilience + caching core of the
private-market-funds service (`app/core/cache.py`, `app/core/resilience.py`,
`app/services/fund_service.py`, `app/services/investor_service.py`,
`app/services/investment_service.py`), together with theorems settling the
spec claims about it.

Modelling conventions:
* `time.monotonic()` readings are explicit `Int` parameters (`now`, `t0`, …);
  float arithmetic on timestamps is only subtraction and comparison, embedded
  over `Int`.
* A Python `dict` (insertion-ordered, unique keys) is an association list
  `List (String × β)`: lookup finds the first matching key, assignment to an
  existing key updates in place, assignment to a fresh key appends,
  `next(iter(d))` is the head.
* Exceptions become `Except` / `Option` results; a raised `StopIteration`
  from `TTLCache.set` is `none`.
-/

set_option autoImplicit false

namespace Funds

universe u

variable {α : Type u} {β : Type u}

/-! ### Python dict primitives (insertion-ordered association list) -/

/-- `d.get(k)` on an insertion-ordered dict: first entry with the key. -/
def dictGet (s : List (String × β)) (k : String) : Option β :=
  match s with
  | [] => none
  | (k', v) :: rest => if k' = k then some v else dictGet rest k

/-- `k in d`: membership test. -/
def containsKey (s : List (String × β)) (k : String) : Bool :=
  match s with
  | [] => false
  | (k', _) :: rest => k' = k || containsKey rest k

/-- `d[k] = v`: update in place when the key exists (keeping its position),
append otherwise. -/
def dictSet (s : List (String × β)) (k : String) (v : β) : List (String × β) :=
  match s with
  | [] => [(k, v)]
  | (k', v') :: rest => if k' = k then (k, v) :: rest else (k', v') :: dictSet rest k v

/-- `del d[k]`: remove the first (with unique keys: the only) entry of `k`. -/
def dictDel (s : List (String × β)) (k : String) : List (String × β) :=
  match s with
  | [] => []
  | (k', v') :: rest => if k' = k then rest else (k', v') :: dictDel rest k

/-! ### `app/core/cache.py` -/

/-- A single cached value with creation timestamp (`CacheEntry`). -/
structure CacheEntry (α : Type u) where
  value : α
  created_at : Int
  deriving Repr, DecidableEq

/-- `CacheEntry.is_expired`: `(time.monotonic() - self.created_at) > ttl`,
with the monotonic clock reading passed in as `now`. -/
def CacheEntry.is_expired (e : CacheEntry α) (ttl : Int) (now : Int) : Bool :=
  now - e.created_at > ttl

/-- The `TTLCache` object state: backing store plus configuration and the
hit/miss counters. -/
structure TTLCache (α : Type u) where
  store : List (String × CacheEntry α)
  ttl : Int
  max_size : Nat
  enabled : Bool
  hits : Nat
  misses : Nat
  deriving Repr, DecidableEq

namespace TTLCache

/-- A freshly constructed cache (`TTLCache.__init__`). -/
def init (ttl : Int) (max_size : Nat) (enabled : Bool) : TTLCache α :=
  { store := [], ttl := ttl, max_size := max_size, enabled := enabled
    hits := 0, misses := 0 }

/-- `TTLCache.get`: returns the looked-up value (`none` on miss or expiry)
together with the updated cache state. -/
def get (c : TTLCache α) (key : String) (now : Int) : Option α × TTLCache α :=
  if !c.enabled then (none, c)
  else
    match dictGet c.store key with
    | none => (none, { c with misses := c.misses + 1 })
    | some entry =>
      if entry.is_expired c.ttl now then
        (none, { c with store := dictDel c.store key, misses := c.misses + 1 })
      else
        (some entry.value, { c with hits := c.hits + 1 })

/-- `TTLCache.set`: stores a value, evicting the oldest entry first when at
capacity with a fresh key.  `next(iter(self._store))` on an empty store
raises `StopIteration`, modelled as `none` (the store is left unchanged,
since the exception fires before any mutation). -/
def set (c : TTLCache α) (key : String) (value : α) (now : Int) :
    Option (TTLCache α) :=
  if !c.enabled then some c
  else if c.store.length ≥ c.max_size && !containsKey c.store key then
    match c.store with
    | [] => none
    | (oldest_key, _) :: _ =>
      some { c with store := dictSet (dictDel c.store oldest_key) key ⟨value, now⟩ }
  else
    some { c with store := dictSet c.store key ⟨value, now⟩ }

/-- Does any of the given strings start the key? (`k.startswith(p)` over the
tuple of invalidation arguments.) -/
def matchesAny (prefs : List String) (k : String) : Bool :=
  prefs.any (fun p => p.isPrefixOf k)

/-- `TTLCache.invalidate`: drop every key starting with one of the given
strings; return how many were removed, with the new state. -/
def invalidate (c : TTLCache α) (prefs : List String) : Nat × TTLCache α :=
  if !c.enabled then (0, c)
  else
    let keysToRemove := (c.store.filter (fun p => matchesAny prefs p.1)).map (·.1)
    (keysToRemove.length,
     { c with store := c.store.filter (fun p => !matchesAny prefs p.1) })

/-- `TTLCache.clear`. -/
def clear (c : TTLCache α) : TTLCache α :=
  { c with store := [] }

end TTLCache

/-- One public cache operation, with its monotonic-clock reading where the
operation consults the clock. -/
inductive CacheOp (α : Type u) where
  | get (key : String) (now : Int)
  | set (key : String) (value : α) (now : Int)
  | invalidate (prefs : List String)
  | clear

/-- Apply one operation to the cache state.  A `set` that raises
`StopIteration` leaves the store unchanged (the exception fires before the
mutation). -/
def CacheOp.apply (op : CacheOp α) (c : TTLCache α) : TTLCache α :=
  match op with
  | .get key now => (c.get key now).2
  | .set key value now => (c.set key value now).getD c
  | .invalidate prefs => (c.invalidate prefs).2
  | .clear => c.clear

/-- Apply a sequence of operations left to right. -/
def applyOps (ops : List (CacheOp α)) (c : TTLCache α) : TTLCache α :=
  ops.foldl (fun c op => op.apply c) c

/-- The keys of a store, in insertion order. -/
def storeKeys (s : List (String × β)) : List String :=
  s.map Prod.fst

/-- Well-formedness of a dict-backed store: keys are pairwise distinct (true
of every store the cache ever builds, since a Python dict cannot hold a key
twice). -/
def keysNodup (s : List (String × β)) : Prop :=
  (storeKeys s).Nodup

instance (s : List (String × β)) [DecidableEq β] : Decidable (keysNodup s) :=
  inferInstanceAs (Decidable (s.map Prod.fst).Nodup)

/-! ### `app/core/resilience.py` — circuit breaker -/

/-- `CircuitState`. -/
inductive CircuitState where
  | closed
  | open
  | half_open
  deriving Repr, DecidableEq

/-- The `CircuitBreaker` object state.  `ε` is the type of exceptions thrown
by wrapped operations; `expected` is the membership test against
`expected_exceptions`. -/
structure CircuitBreaker (ε : Type u) where
  name : String
  failure_threshold : Nat
  recovery_timeout : Int
  expected : ε → Bool
  _state : CircuitState
  _failure_count : Nat
  _last_failure_time : Int
  _success_count : Nat

namespace CircuitBreaker

variable {ε : Type u}

/-- A freshly constructed breaker (`CircuitBreaker.__init__`). -/
def init (name : String) (failure_threshold : Nat) (recovery_timeout : Int)
    (expected : ε → Bool) : CircuitBreaker ε :=
  { name := name, failure_threshold := failure_threshold
    recovery_timeout := recovery_timeout, expected := expected
    _state := .closed, _failure_count := 0, _last_failure_time := 0
    _success_count := 0 }

/-- The `state` property: reading it performs the lazy OPEN → HALF_OPEN
transition when the recovery timeout has elapsed.  Returns the observed
state together with the (possibly updated) breaker. -/
def state (cb : CircuitBreaker ε) (now : Int) :
    CircuitState × CircuitBreaker ε :=
  if cb._state = .open ∧ now - cb._last_failure_time ≥ cb.recovery_timeout then
    (.half_open, { cb with _state := .half_open })
  else
    (cb._state, cb)

/-- `_record_success`: reset the failure counter, bump the success counter,
close the circuit. -/
def _record_success (cb : CircuitBreaker ε) : CircuitBreaker ε :=
  { cb with _failure_count := 0, _success_count := cb._success_count + 1
            _state := .closed }

/-- `_record_failure`: bump the failure counter, stamp the failure time, and
open the circuit when the threshold is reached. -/
def _record_failure (cb : CircuitBreaker ε) (now : Int) : CircuitBreaker ε :=
  let cb := { cb with _failure_count := cb._failure_count + 1
                      _last_failure_time := now }
  if cb._failure_count ≥ cb.failure_threshold then
    { cb with _state := .open }
  else
    cb

end CircuitBreaker

/-- What a wrapped operation does when invoked: return a value or raise. -/
inductive OpOutcome (ε : Type u) (α : Type u) where
  | ok (a : α)
  | exc (e : ε)

/-- Result of `CircuitBreaker.call`: the value, a `CircuitBreakerError`
carrying the breaker name and `retry_after`, or the operation's own
exception re-raised. -/
inductive CallResult (ε : Type u) (α : Type u) where
  | success (a : α)
  | circuitOpenError (name : String) (retry_after : Int)
  | raised (e : ε)

namespace CircuitBreaker

variable {ε : Type u} {α : Type u}

/-- `CircuitBreaker.call`: one guarded invocation at monotonic time `now` of
an operation behaving as `outcome`.  Returns the call result, the new breaker
state, and whether the wrapped operation was actually invoked. -/
def call (cb : CircuitBreaker ε) (now : Int) (outcome : OpOutcome ε α) :
    CallResult ε α × CircuitBreaker ε × Bool :=
  let (st, cb) := cb.state now
  if st = .open then
    let retry_after := cb.recovery_timeout - (now - cb._last_failure_time)
    (.circuitOpenError cb.name (max retry_after 0), cb, false)
  else
    match outcome with
    | .ok a => (.success a, cb._record_success, true)
    | .exc e =>
      if cb.expected e then (.raised e, cb._record_failure now, true)
      else (.raised e, cb, true)

/-- Run a sequence of calls, threading the breaker state; each list element
is a clock reading paired with the operation's behaviour on that call. -/
def calls (cb : CircuitBreaker ε) (steps : List (Int × OpOutcome ε α)) :
    CircuitBreaker ε :=
  steps.foldl (fun cb step => (cb.call step.1 step.2).2.1) cb

/-- The breaker invariant stated in the spec data model: `state == OPEN`
implies `failure_count >= failure_threshold`; the bound carries over to
HALF_OPEN, which is only ever entered from OPEN. -/
def inv (cb : CircuitBreaker ε) : Prop :=
  (cb._state = .open ∨ cb._state = .half_open) →
    cb.failure_threshold ≤ cb._failure_count

end CircuitBreaker

/-! ### `app/core/resilience.py` — retry with backoff -/

/-- Behaviour of one invocation of a function wrapped by
`retry_with_backoff`: return or raise. -/
inductive ROutcome (ε : Type u) (α : Type u) where
  | ok (a : α)
  | fail (e : ε)

variable {ε : Type u}

/-- The retry loop of the `retry_with_backoff` wrapper.  `f i` is the
behaviour of the wrapped function on its `i`-th invocation (0-based);
`retryable` is the membership test against `retryable_exceptions`;
`remaining` is `max_retries - attempt`, the retries still allowed.  Sleeping
and delay arithmetic do not affect the observable result and are elided.
Returns the propagated result and the total number of invocations made. -/
def retryGo (retryable : ε → Bool) (f : Nat → ROutcome ε α) :
    (i : Nat) → (remaining : Nat) → Except ε α × Nat
  | i, remaining =>
    match f i with
    | .ok a => (.ok a, i + 1)
    | .fail e =>
      if retryable e then
        match remaining with
        | 0 => (.error e, i + 1)
        | r + 1 => retryGo retryable f (i + 1) r
      else
        (.error e, i + 1)

/-- `retry_with_backoff(max_retries=N)` applied to a function behaving as
`f`: the loop runs attempts `0 .. N`. -/
def retry_with_backoff (max_retries : Nat) (retryable : ε → Bool)
    (f : Nat → ROutcome ε α) : Except ε α × Nat :=
  retryGo retryable f 0 max_retries

/-! ### Domain model and exceptions
(`app/models/fund.py`, `app/core/exceptions.py`) -/

/-- `FundStatus` lifecycle enum. -/
inductive FundStatus where
  | FUNDRAISING
  | INVESTING
  | CLOSED
  deriving Repr, DecidableEq, Fintype

/-- The string value of a `FundStatus` member. -/
def FundStatus.value : FundStatus → String
  | .FUNDRAISING => "Fundraising"
  | .INVESTING => "Investing"
  | .CLOSED => "Closed"

/-- Domain exceptions raised by the service layer
(`NotFoundException`, `ConflictException`, `BusinessRuleViolation`).
Identifiers are carried as strings (UUIDs rendered). -/
inductive AppError where
  | notFound (resource : String) (identifier : String)
  | conflict (message : String)
  | businessRuleViolation (message : String)
  deriving Repr, DecidableEq

/-- `sub` occurs inside `msg` (substring containment on the raw characters). -/
def mentions (sub msg : String) : Prop :=
  sub.data <:+: msg.data

instance (sub msg : String) : Decidable (mentions sub msg) :=
  inferInstanceAs (Decidable (sub.data <:+: msg.data))

deriving instance DecidableEq for Except

/-- A fund record, with just the fields the claims touch. -/
structure Fund where
  name : String
  status : FundStatus
  deriving Repr, DecidableEq

/-- An investor record. -/
structure Investor where
  name : String
  email : String
  deriving Repr, DecidableEq

/-! ### `app/services/fund_service.py` — status transition validator -/

/-- `_ALLOWED_TRANSITIONS`: the allowed-target sets per current status. -/
def _ALLOWED_TRANSITIONS : FundStatus → List FundStatus
  | .FUNDRAISING => [.FUNDRAISING, .INVESTING, .CLOSED]
  | .INVESTING => [.INVESTING, .CLOSED]
  | .CLOSED => [.CLOSED]

/-- The message of the `BusinessRuleViolation` raised on a forbidden
transition. -/
def transitionErrorMessage (current requested : FundStatus) : String :=
  "Invalid status transition: '" ++ current.value ++ "' → '" ++
    requested.value ++ "'. " ++
    "Fund lifecycle is Fundraising → Investing → Closed (one-way)."

/-- `_validate_status_transition`: raise unless the requested status is in
the allowed set for the current one. -/
def _validate_status_transition (current requested : FundStatus) :
    Except AppError Unit :=
  if requested ∈ _ALLOWED_TRANSITIONS current then
    .ok ()
  else
    .error (.businessRuleViolation (transitionErrorMessage current requested))

/-! ### `app/services/investment_service.py` — create_investment -/

/-- The creation payload (`InvestmentCreate`). -/
structure InvestmentCreate where
  investor_id : String
  amount_usd : Int
  investment_date : Int
  deriving Repr, DecidableEq

/-- A persisted investment row. -/
structure Investment where
  fund_id : String
  investor_id : String
  amount_usd : Int
  investment_date : Int
  deriving Repr, DecidableEq

/-- The collaborators `create_investment` consults: the two lookup
repositories and the persistence call, which either returns the created row
or raises `IntegrityError` (modelled as `Except Unit`). -/
structure InvestmentEnv where
  fundRepoGet : String → Option Fund
  investorRepoGet : String → Option Investor
  investRepoCreate : Investment → Except Unit Investment

/-- Observable outcome of one `create_investment` run: the returned value or
raised exception, plus which side effects happened. -/
structure InvestmentRun where
  result : Except AppError Investment
  investorRepoCalled : Bool
  persistAttempted : Bool
  persisted : Bool
  invalidated : List String
  deriving Repr, DecidableEq

/-- Message of the `BusinessRuleViolation` raised when the fund is closed. -/
def closedFundMessage (fund : Fund) : String :=
  "Fund '" ++ fund.name ++ "' is closed and no longer accepts investments"

/-- Message of the `BusinessRuleViolation` raised on a persistence
`IntegrityError`. -/
def investmentIntegrityMessage : String :=
  "Investment could not be created — a referenced fund or investor " ++
    "may have been removed, or a database constraint was violated."

/-- `InvestmentService.create_investment`: ordered validation (fund exists,
fund not closed, investor exists), then persist; an `IntegrityError` becomes
a `BusinessRuleViolation`; on success the `investments:` cache keys are
invalidated. -/
def create_investment (env : InvestmentEnv) (fund_id : String)
    (invest_in : InvestmentCreate) : InvestmentRun :=
  match env.fundRepoGet fund_id with
  | none =>
    { result := .error (.notFound "Fund" fund_id)
      investorRepoCalled := false, persistAttempted := false
      persisted := false, invalidated := [] }
  | some fund =>
    if fund.status = FundStatus.CLOSED then
      { result := .error (.businessRuleViolation (closedFundMessage fund))
        investorRepoCalled := false, persistAttempted := false
        persisted := false, invalidated := [] }
    else
      match env.investorRepoGet invest_in.investor_id with
      | none =>
        { result := .error (.notFound "Investor" invest_in.investor_id)
          investorRepoCalled := true, persistAttempted := false
          persisted := false, invalidated := [] }
      | some _ =>
        let investment : Investment :=
          { fund_id := fund_id, investor_id := invest_in.investor_id
            amount_usd := invest_in.amount_usd
            investment_date := invest_in.investment_date }
        match env.investRepoCreate investment with
        | .error _ =>
          { result := .error (.businessRuleViolation investmentIntegrityMessage)
            investorRepoCalled := true, persistAttempted := true
            persisted := false, invalidated := [] }
        | .ok created =>
          { result := .ok created
            investorRepoCalled := true, persistAttempted := true
            persisted := true, invalidated := ["investments:"] }

/-! ### `app/services/investor_service.py` — create_investor -/

/-- The creation payload (`InvestorCreate`). -/
structure InvestorCreate where
  name : String
  email : String
  deriving Repr, DecidableEq

/-- The collaborators `create_investor` consults. -/
structure InvestorEnv where
  getByEmail : String → Option Investor
  investorRepoCreate : Investor → Except Unit Investor

/-- Observable outcome of one `create_investor` run. -/
structure InvestorRun where
  result : Except AppError Investor
  persistAttempted : Bool
  persisted : Bool
  invalidated : List String
  deriving Repr, DecidableEq

/-- Message of the `ConflictException` for a duplicate email (identical on
the pre-check path and the `IntegrityError` path). -/
def duplicateEmailMessage (email : String) : String :=
  "An investor with email '" ++ email ++ "' already exists"

/-- `InvestorService.create_investor`: pre-check by email, then persist; an
`IntegrityError` from the write (the check-then-write race) becomes the same
`ConflictException`; on success the `investors:` cache keys are
invalidated. -/
def create_investor (env : InvestorEnv) (investor_in : InvestorCreate) :
    InvestorRun :=
  match env.getByEmail investor_in.email with
  | some _ =>
    { result := .error (.conflict (duplicateEmailMessage investor_in.email))
      persistAttempted := false, persisted := false, invalidated := [] }
  | none =>
    let investor : Investor :=
      { name := investor_in.name, email := investor_in.email }
    match env.investorRepoCreate investor with
    | .error _ =>
      { result := .error (.conflict (duplicateEmailMessage investor_in.email))
        persistAttempted := true, persisted := false, invalidated := [] }
    | .ok created =>
      { result := .ok created
        persistAttempted := true, persisted := true
        invalidated := ["investors:"] }

/-! ## Helper lemmas -/

theorem dictGet_dictSet_self (s : List (String × β)) (k : String) (v : β) :
    dictGet (dictSet s k v) k = some v := by
  induction s with
  | nil => simp [dictSet, dictGet]
  | cons hd tl ih =>
    obtain ⟨k', v'⟩ := hd
    by_cases h : k' = k <;> simp [dictSet, dictGet, h, ih]

/-- The email always occurs in the duplicate-email conflict message. -/
theorem mentions_duplicateEmailMessage (email : String) :
    mentions email (duplicateEmailMessage email) := by
  unfold mentions duplicateEmailMessage
  simp only [String.data_append, List.append_assoc]
  exact ((List.prefix_append email.data _).isInfix).trans
    (List.suffix_append _ _).isInfix

/-- The word "closed" always occurs in the closed-fund rejection message. -/
theorem mentions_closedFundMessage (fund : Fund) :
    mentions "closed" (closedFundMessage fund) := by
  unfold mentions closedFundMessage
  simp only [String.data_append, List.append_assoc]
  exact ((by decide :
      ("closed".data <:+: "' is closed and no longer accepts investments".data)).trans
    (List.suffix_append fund.name.data _).isInfix).trans
    (List.suffix_append _ _).isInfix

/-! ## Claims -/

/-- C2: `_validate_status_transition` succeeds exactly on the pairs of the
table {Fundraising → {Fundraising, Investing, Closed}, Investing →
{Investing, Closed}, Closed → {Closed}}; every pair outside the table fails
with a `BusinessRuleViolation` whose message names both the current and the
requested state. -/
theorem fundStatusTransitionTable (current requested : FundStatus) :
    (_validate_status_transition current requested = .ok () ↔
      (current, requested) ∈
        ([(.FUNDRAISING, .FUNDRAISING), (.FUNDRAISING, .INVESTING),
          (.FUNDRAISING, .CLOSED), (.INVESTING, .INVESTING),
          (.INVESTING, .CLOSED), (.CLOSED, .CLOSED)] :
          List (FundStatus × FundStatus)))
    ∧ ((current, requested) ∉
        ([(.FUNDRAISING, .FUNDRAISING), (.FUNDRAISING, .INVESTING),
          (.FUNDRAISING, .CLOSED), (.INVESTING, .INVESTING),
          (.INVESTING, .CLOSED), (.CLOSED, .CLOSED)] :
          List (FundStatus × FundStatus)) →
        _validate_status_transition current requested =
          .error (.businessRuleViolation
            (transitionErrorMessage current requested)) ∧
        mentions current.value (transitionErrorMessage current requested) ∧
        mentions requested.value (transitionErrorMessage current requested)) := by
  revert current requested
  decide

/-- Witness for C2 at the concrete forbidden pair Closed → Fundraising. -/
theorem fundStatusTransitionTable_witness :
    _validate_status_transition .CLOSED .FUNDRAISING =
      .error (.businessRuleViolation
        (transitionErrorMessage .CLOSED .FUNDRAISING)) ∧
    mentions (FundStatus.CLOSED).value
      (transitionErrorMessage .CLOSED .FUNDRAISING) ∧
    mentions (FundStatus.FUNDRAISING).value
      (transitionErrorMessage .CLOSED .FUNDRAISING) :=
  (fundStatusTransitionTable .CLOSED .FUNDRAISING).2 (by decide)

/-- C10: `TTLCache.set` raises an uncaught `StopIteration` (modelled as
`none`) exactly on an enabled cache whose store is empty while already at
capacity — i.e. `max_size = 0`; whenever `max_size ≥ 1` a `set` never
raises. -/
theorem setStopIteration (c : TTLCache α) (k : String) (v : α) (now : Int) :
    (c.set k v now = none ↔
      c.enabled = true ∧ c.store = [] ∧ c.max_size = 0)
    ∧ (1 ≤ c.max_size → ∃ c', c.set k v now = some c') := by
  have main : c.set k v now = none ↔
      c.enabled = true ∧ c.store = [] ∧ c.max_size = 0 := by
    constructor
    · intro hnone
      unfold TTLCache.set at hnone
      split at hnone
      · exact absurd hnone (by simp)
      · next henb =>
        have hc : c.enabled = true := by
          revert henb; cases c.enabled <;> simp
        split at hnone
        · next hcond =>
          split at hnone
          · next hnil =>
            refine ⟨hc, hnil, ?_⟩
            rw [hnil] at hcond
            simp [containsKey] at hcond
            omega
          · exact absurd hnone (by simp)
        · exact absurd hnone (by simp)
    · rintro ⟨hc, hnil, hm⟩
      unfold TTLCache.set
      simp [hc, hnil, hm, containsKey]
  refine ⟨main, fun hm => ?_⟩
  cases hset : c.set k v now with
  | none =>
    exfalso
    have := main.mp hset
    omega
  | some c' => exact ⟨c', rfl⟩

/-- Witness for C10: on `max_size = 0` the `set` raises; with `max_size = 5`
it succeeds. -/
theorem setStopIteration_witness :
    ((TTLCache.init (α := Nat) 30 0 true).set "k" 5 0 = none ↔
      (TTLCache.init (α := Nat) 30 0 true).enabled = true ∧
      (TTLCache.init (α := Nat) 30 0 true).store = [] ∧
      (TTLCache.init (α := Nat) 30 0 true).max_size = 0) ∧
    (1 ≤ (5 : Nat) ∧
      ∃ c', (TTLCache.init (α := Nat) 30 5 true).set "k" 5 0 = some c') :=
  ⟨(setStopIteration (TTLCache.init 30 0 true) "k" 5 0).1,
   by decide,
   (setStopIteration (TTLCache.init 30 5 true) "k" 5 0).2 (by decide)⟩

/-- C7 (amended): every `get` on an **enabled** cache increments exactly one
of the hit and miss counters (a lookup that finds only an expired entry
counts as a miss); a `get` on a cache constructed with `enabled = False`
increments neither counter. -/
theorem getHitOrMiss (c : TTLCache α) (k : String) (now : Int) :
    (c.enabled = true →
      ((c.get k now).2.hits = c.hits + 1 ∧
        (c.get k now).2.misses = c.misses) ∨
      ((c.get k now).2.hits = c.hits ∧
        (c.get k now).2.misses = c.misses + 1))
    ∧ (c.enabled = false →
        (c.get k now).2.hits = c.hits ∧
        (c.get k now).2.misses = c.misses) := by
  unfold TTLCache.get
  constructor
  · intro hc
    simp only [hc, Bool.not_true, Bool.false_eq_true, if_false]
    cases hdg : dictGet c.store k with
    | none => right; simp
    | some entry =>
      by_cases hexp : entry.is_expired c.ttl now
      · right; simp [hexp]
      · left; simp [hexp]
  · intro hc
    simp [hc]

/-- C7 counterexample: the claim as stated extends to disabled caches, but a
`get` on a cache constructed with `enabled = False` increments neither
counter, so hits + misses does not count that lookup. -/
theorem getHitOrMiss_counterexample :
    ¬ (((TTLCache.init (α := Nat) 30 10 false).get "k" 0).2.hits +
         ((TTLCache.init (α := Nat) 30 10 false).get "k" 0).2.misses =
       (TTLCache.init (α := Nat) 30 10 false).hits +
         (TTLCache.init (α := Nat) 30 10 false).misses + 1) := by
  decide

/-- Witness for C7 (amended) on a concrete enabled cache. -/
theorem getHitOrMiss_witness :
    (((TTLCache.init (α := Nat) 30 10 true).get "k" 0).2.hits =
        (TTLCache.init (α := Nat) 30 10 true).hits + 1 ∧
      ((TTLCache.init (α := Nat) 30 10 true).get "k" 0).2.misses =
        (TTLCache.init (α := Nat) 30 10 true).misses) ∨
    (((TTLCache.init (α := Nat) 30 10 true).get "k" 0).2.hits =
        (TTLCache.init (α := Nat) 30 10 true).hits ∧
      ((TTLCache.init (α := Nat) 30 10 true).get "k" 0).2.misses =
        (TTLCache.init (α := Nat) 30 10 true).misses + 1) :=
  (getHitOrMiss (TTLCache.init 30 10 true) "k" 0).1 rfl

/-- C9: `create_investor` yields an email-referencing Conflict on every
duplicate: a pre-check hit fails without attempting the write, and an
`IntegrityError` raised by the write (the check-then-write race) is
translated into the identical Conflict; only a successful write invalidates
the `investors:` cache keys. -/
theorem createInvestorConflict (env : InvestorEnv)
    (investor_in : InvestorCreate) :
    (∀ ex, env.getByEmail investor_in.email = some ex →
      create_investor env investor_in =
        { result := .error (.conflict (duplicateEmailMessage investor_in.email))
          persistAttempted := false, persisted := false, invalidated := [] })
    ∧ (env.getByEmail investor_in.email = none →
        (env.investorRepoCreate ⟨investor_in.name, investor_in.email⟩ =
            .error () →
          create_investor env investor_in =
            { result :=
                .error (.conflict (duplicateEmailMessage investor_in.email))
              persistAttempted := true, persisted := false
              invalidated := [] })
        ∧ (∀ created,
            env.investorRepoCreate ⟨investor_in.name, investor_in.email⟩ =
              .ok created →
            create_investor env investor_in =
              { result := .ok created, persistAttempted := true
                persisted := true, invalidated := ["investors:"] }))
    ∧ mentions investor_in.email (duplicateEmailMessage investor_in.email) := by
  refine ⟨fun ex hex => ?_, fun hnone => ⟨fun herr => ?_, fun created hok => ?_⟩,
    mentions_duplicateEmailMessage investor_in.email⟩
  · unfold create_investor
    rw [hex]
  · unfold create_investor
    rw [hnone]
    dsimp only
    rw [herr]
  · unfold create_investor
    rw [hnone]
    dsimp only
    rw [hok]

/-- Witness for C9: the race path on a concrete environment whose pre-check
passes but whose write raises `IntegrityError`. -/
theorem createInvestorConflict_witness :
    create_investor
        { getByEmail := fun _ => none
          investorRepoCreate := fun _ => .error () }
        { name := "A", email := "a@x.com" } =
      { result := .error (.conflict (duplicateEmailMessage "a@x.com"))
        persistAttempted := true, persisted := false, invalidated := [] } :=
  ((createInvestorConflict
      { getByEmail := fun _ => none
        investorRepoCreate := fun _ => .error () }
      { name := "A", email := "a@x.com" }).2.1 rfl).1 rfl

/-- C1: `create_investment` validates in order.  A missing fund yields
`NotFound("Fund", fund_id)` with the investor repository never consulted and
nothing persisted or invalidated; a Closed fund yields a
`BusinessRuleViolation` mentioning "closed", again with no persistence and
no cache invalidation; a missing investor yields
`NotFound("Investor", investor_id)` without persisting; with all three
checks passed the investment is persisted, a persistence `IntegrityError`
becomes a `BusinessRuleViolation` with no cache invalidation, and a
successful write invalidates the `investments:` cache keys. -/
theorem createInvestmentOrderedValidation (env : InvestmentEnv)
    (fund_id : String) (invest_in : InvestmentCreate) :
    (env.fundRepoGet fund_id = none →
      create_investment env fund_id invest_in =
        { result := .error (.notFound "Fund" fund_id)
          investorRepoCalled := false, persistAttempted := false
          persisted := false, invalidated := [] })
    ∧ (∀ fund, env.fundRepoGet fund_id = some fund →
        fund.status = .CLOSED →
        create_investment env fund_id invest_in =
          { result := .error (.businessRuleViolation (closedFundMessage fund))
            investorRepoCalled := false, persistAttempted := false
            persisted := false, invalidated := [] } ∧
        mentions "closed" (closedFundMessage fund))
    ∧ (∀ fund, env.fundRepoGet fund_id = some fund →
        fund.status ≠ .CLOSED →
        env.investorRepoGet invest_in.investor_id = none →
        create_investment env fund_id invest_in =
          { result := .error (.notFound "Investor" invest_in.investor_id)
            investorRepoCalled := true, persistAttempted := false
            persisted := false, invalidated := [] })
    ∧ (∀ fund investor, env.fundRepoGet fund_id = some fund →
        fund.status ≠ .CLOSED →
        env.investorRepoGet invest_in.investor_id = some investor →
        (env.investRepoCreate
            { fund_id := fund_id, investor_id := invest_in.investor_id
              amount_usd := invest_in.amount_usd
              investment_date := invest_in.investment_date } = .error () →
          create_investment env fund_id invest_in =
            { result := .error (.businessRuleViolation investmentIntegrityMessage)
              investorRepoCalled := true, persistAttempted := true
              persisted := false, invalidated := [] })
        ∧ (∀ created,
            env.investRepoCreate
              { fund_id := fund_id, investor_id := invest_in.investor_id
                amount_usd := invest_in.amount_usd
                investment_date := invest_in.investment_date } = .ok created →
            create_investment env fund_id invest_in =
              { result := .ok created
                investorRepoCalled := true, persistAttempted := true
                persisted := true, invalidated := ["investments:"] })) := by
  refine ⟨fun hfund => ?_, fun fund hfund hclosed => ?_,
    fun fund hfund hopen hinv => ?_,
    fun fund investor hfund hopen hinv =>
      ⟨fun herr => ?_, fun created hok => ?_⟩⟩
  · unfold create_investment
    rw [hfund]
  · refine ⟨?_, mentions_closedFundMessage fund⟩
    unfold create_investment
    rw [hfund]
    dsimp only
    rw [if_pos hclosed]
  · unfold create_investment
    rw [hfund]
    dsimp only
    rw [if_neg hopen, hinv]
  · unfold create_investment
    rw [hfund]
    dsimp only
    rw [if_neg hopen, hinv]
    dsimp only
    rw [herr]
  · unfold create_investment
    rw [hfund]
    dsimp only
    rw [if_neg hopen, hinv]
    dsimp only
    rw [hok]

/-- Witness for C1: the closed-fund rejection on a concrete environment. -/
theorem createInvestmentOrderedValidation_witness :
    create_investment
        { fundRepoGet := fun _ => some { name := "F", status := .CLOSED }
          investorRepoGet := fun _ => some { name := "A", email := "a@x.com" }
          investRepoCreate := fun i => .ok i }
        "fund-1" { investor_id := "inv-1", amount_usd := 50000000
                   investment_date := 20250615 } =
      { result := .error (.businessRuleViolation
          (closedFundMessage { name := "F", status := .CLOSED }))
        investorRepoCalled := false, persistAttempted := false
        persisted := false, invalidated := [] } ∧
    mentions "closed" (closedFundMessage { name := "F", status := .CLOSED }) :=
  (createInvestmentOrderedValidation
      { fundRepoGet := fun _ => some { name := "F", status := .CLOSED }
        investorRepoGet := fun _ => some { name := "A", email := "a@x.com" }
        investRepoCreate := fun i => .ok i }
      "fund-1" { investor_id := "inv-1", amount_usd := 50000000
                 investment_date := 20250615 }).2.1
    { name := "F", status := .CLOSED } rfl rfl

/-- The retry loop on an operation that always raises a whitelisted
exception runs through all remaining attempts and propagates the last
exception. -/
theorem retryGo_allFail {α : Type u} (retryable : ε → Bool) (g : Nat → ε)
    (hall : ∀ j, retryable (g j) = true) :
    ∀ (r i : Nat),
      retryGo (α := α) retryable (fun j => .fail (g j)) i r =
        (.error (g (i + r)), i + r + 1) := by
  intro r
  induction r with
  | zero =>
    intro i
    rw [retryGo]
    simp [hall i]
  | succ r ih =>
    intro i
    rw [retryGo]
    simp only [hall i, if_true]
    rw [ih (i + 1)]
    have h1 : i + 1 + r = i + (r + 1) := by omega
    rw [h1]

/-- The retry loop stops at the first non-whitelisted exception, after
exactly that attempt. -/
theorem retryGo_stopsAtNonRetryable {α : Type u} (retryable : ε → Bool)
    (g : Nat → ε) :
    ∀ (k i r : Nat), k ≤ r →
      (∀ j, j < k → retryable (g (i + j)) = true) →
      retryable (g (i + k)) = false →
      retryGo (α := α) retryable (fun j => .fail (g j)) i r =
        (.error (g (i + k)), i + k + 1) := by
  intro k
  induction k with
  | zero =>
    intro i r _ _ hfalse
    rw [retryGo]
    simp only [Nat.add_zero] at hfalse
    simp [hfalse]
  | succ k ih =>
    intro i r hkr hpre hfalse
    obtain ⟨r', rfl⟩ : ∃ r', r = r' + 1 := ⟨r - 1, by omega⟩
    rw [retryGo]
    have h0 : retryable (g i) = true := by
      have := hpre 0 (by omega)
      simpa using this
    simp only [h0, if_true]
    have harith : ∀ j : Nat, i + 1 + j = i + (j + 1) := by omega
    rw [ih (i + 1) r' (by omega)
      (fun j hj => by rw [harith j]; exact hpre (j + 1) (by omega))
      (by rw [harith k]; exact hfalse)]
    rw [harith k]

/-- C8: a function wrapped by `retry_with_backoff(max_retries=N)` whose body
always raises a whitelisted exception is invoked exactly N + 1 times and the
last exception propagates; with `max_retries=0` it is invoked exactly once;
and a non-whitelisted exception propagates immediately after the attempt
that raised it, with no further invocations. -/
theorem retryWithBackoffAttempts {α : Type u} (N : Nat) (retryable : ε → Bool)
    (g : Nat → ε) :
    ((∀ j, retryable (g j) = true) →
      retry_with_backoff (α := α) N retryable (fun j => .fail (g j)) =
        (.error (g N), N + 1))
    ∧ ((∀ j, retryable (g j) = true) →
        retry_with_backoff (α := α) 0 retryable (fun j => .fail (g j)) =
          (.error (g 0), 1))
    ∧ (∀ k, k ≤ N →
        (∀ j, j < k → retryable (g j) = true) →
        retryable (g k) = false →
        retry_with_backoff (α := α) N retryable (fun j => .fail (g j)) =
          (.error (g k), k + 1)) := by
  refine ⟨fun hall => ?_, fun hall => ?_, fun k hk hpre hfalse => ?_⟩
  · unfold retry_with_backoff
    rw [retryGo_allFail retryable g hall N 0]
    simp
  · unfold retry_with_backoff
    rw [retryGo_allFail retryable g hall 0 0]
  · unfold retry_with_backoff
    rw [retryGo_stopsAtNonRetryable retryable g k 0 N hk
      (fun j hj => by simpa using hpre j hj) (by simpa using hfalse)]
    simp

/-- Witness for C8 at `max_retries = 2`: an always-retryable failure is
attempted three times; a non-retryable failure on the second attempt stops
after two invocations. -/
theorem retryWithBackoffAttempts_witness :
    (retry_with_backoff (α := Nat) 2 (fun e : Nat => e == 0)
        (fun j => .fail 0) = (.error 0, 3))
    ∧ (retry_with_backoff (α := Nat) 2 (fun e : Nat => e == 0)
        (fun j => .fail j) = (.error 1, 2)) :=
  ⟨(retryWithBackoffAttempts 2 (fun e : Nat => e == 0) (fun _ => 0)).1
      (fun _ => rfl),
   (retryWithBackoffAttempts 2 (fun e : Nat => e == 0) (fun j => j)).2.2 1
      (by omega)
      (fun j hj => by
        have hj0 : j = 0 := by omega
        subst hj0
        rfl)
      rfl⟩

/-- Field bookkeeping for `_record_failure`. -/
theorem _record_failure_spec (cb : CircuitBreaker ε) (now : Int) :
    (cb._record_failure now)._failure_count = cb._failure_count + 1 ∧
    (cb._record_failure now)._last_failure_time = now ∧
    (cb._record_failure now).failure_threshold = cb.failure_threshold ∧
    (cb._record_failure now).expected = cb.expected ∧
    (cb._record_failure now)._state =
      (if cb.failure_threshold ≤ cb._failure_count + 1 then .open
       else cb._state) := by
  unfold CircuitBreaker._record_failure
  by_cases h : cb.failure_threshold ≤ cb._failure_count + 1 <;> simp [h]

/-- A call on a breaker whose `_state` is CLOSED with a classified failure
records the failure. -/
theorem call_closed_classified {α : Type u} (cb : CircuitBreaker ε) (t : Int)
    (e : ε) (h : cb._state = .closed) (he : cb.expected e = true) :
    (cb.call (α := α) t (.exc e)).2.1 = cb._record_failure t := by
  unfold CircuitBreaker.call CircuitBreaker.state
  rw [if_neg (by simp [h])]
  simp [h, he]

/-- A sequence of classified-failure calls that exhausts the failure budget
of a CLOSED breaker leaves it OPEN with the threshold reached. -/
theorem calls_allClassifiedFail_open {α : Type u} (e : ε) :
    ∀ (ts : List Int) (cb : CircuitBreaker ε),
      cb._state = .closed → cb.expected e = true →
      cb._failure_count + ts.length = cb.failure_threshold →
      1 ≤ ts.length →
      (CircuitBreaker.calls (α := α) cb
        (ts.map fun t => (t, .exc e)))._state = .open := by
  intro ts
  induction ts with
  | nil =>
    intro cb _ _ _ habs
    exact absurd habs (by simp)
  | cons t ts ih =>
    intro cb hclosed hexp hcount _
    have hstep :
        CircuitBreaker.calls (α := α) cb
            (((t :: ts)).map fun t => (t, .exc e)) =
          CircuitBreaker.calls (α := α) (cb.call (α := α) t (.exc e)).2.1
            (ts.map fun t => (t, .exc e)) := by
      simp [CircuitBreaker.calls]
    rw [hstep, call_closed_classified cb t e hclosed hexp]
    obtain ⟨hfc, hlft, hthr, hexp', hst⟩ := _record_failure_spec cb t
    cases ts with
    | nil =>
      have hopen : (cb._record_failure t)._state = .open := by
        rw [hst, if_pos (by simp at hcount; omega)]
      simpa [CircuitBreaker.calls] using hopen
    | cons t' ts' =>
      have hlt : ¬ cb.failure_threshold ≤ cb._failure_count + 1 := by
        simp at hcount
        omega
      refine ih (cb._record_failure t) ?_ ?_ ?_ (by simp)
      · rw [hst, if_neg hlt, hclosed]
      · rw [hexp', hexp]
      · rw [hfc, hthr]
        simp at hcount ⊢
        omega

/-- C3: starting CLOSED with `failure_count = 0`, exactly
`failure_threshold` consecutive calls raising a classified exception leave
the breaker OPEN; while OPEN with the recovery timeout not yet elapsed, any
call is rejected with `CircuitBreakerError` carrying the breaker name and
`retry_after = max(0, recovery_timeout - elapsed)` without invoking the
operation; and a non-classified failure on a CLOSED breaker propagates
without changing any breaker state. -/
theorem circuitBreakerOpensAfterThreshold {ε α : Type u}
    (cb : CircuitBreaker ε) (e : ε) (ts : List Int)
    (hclosed : cb._state = .closed) (hfc : cb._failure_count = 0)
    (hthr : 1 ≤ cb.failure_threshold)
    (hlen : ts.length = cb.failure_threshold)
    (hexp : cb.expected e = true) :
    ((CircuitBreaker.calls (α := α) cb
        (ts.map fun t => (t, .exc e)))._state = .open)
    ∧ (∀ (cb' : CircuitBreaker ε) (now : Int) (outcome : OpOutcome ε α),
        cb'._state = .open →
        now - cb'._last_failure_time < cb'.recovery_timeout →
        cb'.call now outcome =
          (.circuitOpenError cb'.name
            (max 0 (cb'.recovery_timeout - (now - cb'._last_failure_time))),
           cb', false))
    ∧ (∀ (cb' : CircuitBreaker ε) (now : Int) (e' : ε),
        cb'._state = .closed → cb'.expected e' = false →
        cb'.call (α := α) now (.exc e') = (.raised e', cb', true)) := by
  refine ⟨?_, fun cb' now outcome hopen helapsed => ?_,
    fun cb' now e' hclosed' hunexp => ?_⟩
  · exact calls_allClassifiedFail_open e ts cb hclosed hexp (by omega) (by omega)
  · unfold CircuitBreaker.call CircuitBreaker.state
    rw [if_neg (by rintro ⟨-, habs⟩; omega)]
    simp [hopen, max_comm]
  · unfold CircuitBreaker.call CircuitBreaker.state
    rw [if_neg (by simp [hclosed'])]
    simp [hclosed', hunexp]

/-- Witness for C3 at a concrete breaker with threshold 2. -/
theorem circuitBreakerOpensAfterThreshold_witness :
    ((CircuitBreaker.calls (α := Nat)
        (CircuitBreaker.init "database" 2 30 (fun e : Nat => e == 0))
        ([1, 2].map fun t => (t, .exc 0)))._state = .open)
    ∧ (({ name := "database", failure_threshold := 2, recovery_timeout := 30
          expected := fun e : Nat => e == 0, _state := .open
          _failure_count := 2, _last_failure_time := 2, _success_count := 0 } :
            CircuitBreaker Nat).call 10 (.ok (5 : Nat)) =
        (.circuitOpenError "database" (max 0 (30 - (10 - 2))),
         { name := "database", failure_threshold := 2, recovery_timeout := 30
           expected := fun e : Nat => e == 0, _state := .open
           _failure_count := 2, _last_failure_time := 2
           _success_count := 0 }, false))
    ∧ (({ name := "database", failure_threshold := 2, recovery_timeout := 30
          expected := fun e : Nat => e == 0, _state := .closed
          _failure_count := 0, _last_failure_time := 0, _success_count := 0 } :
            CircuitBreaker Nat).call (α := Nat) 5 (.exc 1) =
        (.raised 1,
         { name := "database", failure_threshold := 2, recovery_timeout := 30
           expected := fun e : Nat => e == 0, _state := .closed
           _failure_count := 0, _last_failure_time := 0
           _success_count := 0 }, true)) := by
  obtain ⟨h1, h2, h3⟩ := circuitBreakerOpensAfterThreshold
    (CircuitBreaker.init (ε := Nat) "database" 2 30 (fun e => e == 0))
    0 [1, 2] rfl rfl (by decide) rfl rfl
  exact ⟨h1,
    h2 _ 10 (.ok 5) rfl (by decide),
    h3 _ 5 1 rfl rfl⟩

/-- `_record_failure` preserves the breaker invariant. -/
theorem inv_record_failure (cb : CircuitBreaker ε) (now : Int)
    (hinv : cb.inv) : (cb._record_failure now).inv := by
  unfold CircuitBreaker.inv CircuitBreaker._record_failure at *
  by_cases h : cb.failure_threshold ≤ cb._failure_count + 1
  · simp [h]
  · simp only [ge_iff_le, h, if_false]
    intro hst
    have := hinv hst
    omega

/-- The lazy state read preserves the breaker invariant. -/
theorem inv_state (cb : CircuitBreaker ε) (now : Int) (hinv : cb.inv) :
    ((cb.state now).2).inv := by
  unfold CircuitBreaker.inv CircuitBreaker.state at *
  by_cases h : cb._state = .open ∧ now - cb._last_failure_time ≥ cb.recovery_timeout
  · simp only [h, if_true]
    intro _
    exact hinv (Or.inl h.1)
  · simpa [h] using hinv

/-- C4: for a breaker in OPEN state, a state read once the recovery timeout
has elapsed yields HALF_OPEN (the transition is a pure function of the read
time, with no timer); a successful call in HALF_OPEN closes the breaker,
resets `failure_count` to 0 and increments `success_count`; a classified
failure in HALF_OPEN (whose incremented count reaches the threshold, as the
breaker invariant guarantees for every reachable HALF_OPEN state) re-opens
the breaker and stamps `last_failure_time`; and every call preserves that
invariant. -/
theorem circuitBreakerRecovery {ε α : Type u} :
    (∀ (cb : CircuitBreaker ε) (now : Int),
        cb._state = .open →
        now - cb._last_failure_time ≥ cb.recovery_timeout →
        cb.state now = (.half_open, { cb with _state := .half_open }))
    ∧ (∀ (cb : CircuitBreaker ε) (now : Int) (a : α),
        cb._state = .half_open →
        cb.call now (.ok a) =
          (.success a,
           { cb with _failure_count := 0
                     _success_count := cb._success_count + 1
                     _state := .closed }, true))
    ∧ (∀ (cb : CircuitBreaker ε) (now : Int) (e : ε),
        cb._state = .half_open → cb.expected e = true →
        cb.failure_threshold ≤ cb._failure_count + 1 →
        cb.call (α := α) now (.exc e) =
          (.raised e,
           { cb with _failure_count := cb._failure_count + 1
                     _last_failure_time := now
                     _state := .open }, true))
    ∧ (∀ (cb : CircuitBreaker ε) (now : Int) (outcome : OpOutcome ε α),
        cb.inv → ((cb.call now outcome).2.1).inv) := by
  refine ⟨fun cb now hopen helapsed => ?_, fun cb now a hhalf => ?_,
    fun cb now e hhalf hexp hthr => ?_, fun cb now outcome hinv => ?_⟩
  · unfold CircuitBreaker.state
    rw [if_pos ⟨hopen, helapsed⟩]
  · unfold CircuitBreaker.call CircuitBreaker.state
    rw [if_neg (by simp [hhalf])]
    simp [hhalf, CircuitBreaker._record_success]
  · unfold CircuitBreaker.call CircuitBreaker.state
    rw [if_neg (by simp [hhalf])]
    simp [hhalf, hexp, CircuitBreaker._record_failure, hthr]
  · unfold CircuitBreaker.call
    rcases hst : cb.state now with ⟨st, cb1⟩
    have hinv1 : cb1.inv := by
      have := inv_state cb now hinv
      rw [hst] at this
      exact this
    by_cases hopen : st = .open
    · simp [hst, hopen, hinv1]
    · cases outcome with
      | ok a =>
        simp only [hst, hopen, if_false]
        intro habs
        simp [CircuitBreaker._record_success] at habs
      | exc e =>
        by_cases hexp : cb1.expected e = true
        · simpa [hst, hopen, hexp] using inv_record_failure cb1 now hinv1
        · simpa [hst, hopen, hexp] using hinv1

/-- Witness for C4 at concrete breakers. -/
theorem circuitBreakerRecovery_witness :
    (({ name := "database", failure_threshold := 2, recovery_timeout := 30
        expected := fun e : Nat => e == 0, _state := .open
        _failure_count := 2, _last_failure_time := 2, _success_count := 0 } :
          CircuitBreaker Nat).state 40 =
      (.half_open,
       { name := "database", failure_threshold := 2, recovery_timeout := 30
         expected := fun e : Nat => e == 0, _state := .half_open
         _failure_count := 2, _last_failure_time := 2, _success_count := 0 }))
    ∧ (({ name := "database", failure_threshold := 2, recovery_timeout := 30
          expected := fun e : Nat => e == 0, _state := .half_open
          _failure_count := 2, _last_failure_time := 2, _success_count := 0 } :
            CircuitBreaker Nat).call 41 (.ok (7 : Nat)) =
        (.success 7,
         { name := "database", failure_threshold := 2, recovery_timeout := 30
           expected := fun e : Nat => e == 0, _state := .closed
           _failure_count := 0, _last_failure_time := 2
           _success_count := 1 }, true))
    ∧ (({ name := "database", failure_threshold := 2, recovery_timeout := 30
          expected := fun e : Nat => e == 0, _state := .half_open
          _failure_count := 2, _last_failure_time := 2, _success_count := 0 } :
            CircuitBreaker Nat).call (α := Nat) 41 (.exc 0) =
        (.raised 0,
         { name := "database", failure_threshold := 2, recovery_timeout := 30
           expected := fun e : Nat => e == 0, _state := .open
           _failure_count := 3, _last_failure_time := 41
           _success_count := 0 }, true)) := by
  obtain ⟨h1, h2, h3, -⟩ := circuitBreakerRecovery (ε := Nat) (α := Nat)
  exact ⟨h1 _ 40 rfl (by decide),
    h2 _ 41 7 rfl,
    h3 _ 41 0 rfl rfl (by decide)⟩

/-! ### Dict-level lemmas for the cache claims -/

theorem containsKey_eq_mem (s : List (String × β)) (k : String) :
    containsKey s k = true ↔ k ∈ storeKeys s := by
  induction s with
  | nil => simp [containsKey, storeKeys]
  | cons hd tl ih =>
    obtain ⟨k', v'⟩ := hd
    simp only [containsKey, Bool.or_eq_true, decide_eq_true_eq, ih, storeKeys,
      List.map_cons, List.mem_cons]
    exact or_congr eq_comm Iff.rfl

theorem dictGet_eq_none_iff_contains (s : List (String × β)) (k : String) :
    dictGet s k = none ↔ containsKey s k = false := by
  induction s with
  | nil => simp [dictGet, containsKey]
  | cons hd tl ih =>
    obtain ⟨k', v'⟩ := hd
    by_cases h : k' = k <;> simp [dictGet, containsKey, h, ih]

theorem dictGet_eq_none_iff (s : List (String × β)) (k : String) :
    dictGet s k = none ↔ k ∉ storeKeys s := by
  rw [dictGet_eq_none_iff_contains, Bool.eq_false_iff]
  exact not_congr (containsKey_eq_mem s k)

theorem dictDel_sublist (s : List (String × β)) (k : String) :
    (dictDel s k).Sublist s := by
  induction s with
  | nil => simp [dictDel]
  | cons hd tl ih =>
    obtain ⟨k', v'⟩ := hd
    simp only [dictDel]
    by_cases h : k' = k
    · rw [if_pos h]
      exact List.sublist_cons_self _ _
    · rw [if_neg h]
      exact ih.cons₂ _

theorem dictDel_length_le (s : List (String × β)) (k : String) :
    (dictDel s k).length ≤ s.length :=
  (dictDel_sublist s k).length_le

theorem storeKeys_dictDel_sublist (s : List (String × β)) (k : String) :
    (storeKeys (dictDel s k)).Sublist (storeKeys s) :=
  (dictDel_sublist s k).map Prod.fst

theorem storeKeys_dictSet_of_contains (s : List (String × β)) (k : String)
    (v : β) (h : containsKey s k = true) :
    storeKeys (dictSet s k v) = storeKeys s := by
  induction s with
  | nil => simp [containsKey] at h
  | cons hd tl ih =>
    obtain ⟨k', v'⟩ := hd
    by_cases hk : k' = k
    · simp [dictSet, storeKeys, hk]
    · simp [containsKey, hk] at h
      simp [dictSet, storeKeys, hk]
      simpa [storeKeys] using ih h

theorem storeKeys_dictSet_of_not_contains (s : List (String × β)) (k : String)
    (v : β) (h : containsKey s k = false) :
    storeKeys (dictSet s k v) = storeKeys s ++ [k] := by
  induction s with
  | nil => simp [dictSet, storeKeys]
  | cons hd tl ih =>
    obtain ⟨k', v'⟩ := hd
    simp [containsKey] at h
    simp [dictSet, storeKeys, h.1]
    simpa [storeKeys] using ih (by simpa using h.2)

theorem dictSet_length (s : List (String × β)) (k : String) (v : β) :
    (dictSet s k v).length =
      if containsKey s k then s.length else s.length + 1 := by
  have hlen : (dictSet s k v).length = (storeKeys (dictSet s k v)).length := by
    simp [storeKeys]
  by_cases h : containsKey s k
  · rw [hlen, storeKeys_dictSet_of_contains s k v h]
    simp [storeKeys, h]
  · rw [hlen, storeKeys_dictSet_of_not_contains s k v (by simpa using h)]
    simp [storeKeys, h]

theorem keysNodup_dictSet (s : List (String × β)) (k : String) (v : β)
    (h : keysNodup s) : keysNodup (dictSet s k v) := by
  by_cases hc : containsKey s k
  · unfold keysNodup
    rw [storeKeys_dictSet_of_contains s k v hc]
    exact h
  · unfold keysNodup
    rw [storeKeys_dictSet_of_not_contains s k v (by simpa using hc)]
    have hk : k ∉ storeKeys s := by
      intro hmem
      exact hc ((containsKey_eq_mem s k).mpr hmem)
    exact h.append (List.nodup_singleton k)
      (fun a ha hb => by
        simp only [List.mem_singleton] at hb
        exact hk (hb ▸ ha))

theorem keysNodup_dictDel (s : List (String × β)) (k : String)
    (h : keysNodup s) : keysNodup (dictDel s k) :=
  (storeKeys_dictDel_sublist s k).nodup h

theorem dictGet_dictDel_self (s : List (String × β)) (k : String)
    (h : keysNodup s) : dictGet (dictDel s k) k = none := by
  induction s with
  | nil => simp [dictDel, dictGet]
  | cons hd tl ih =>
    obtain ⟨k', v'⟩ := hd
    unfold keysNodup storeKeys at h
    simp only [List.map_cons, List.nodup_cons] at h
    by_cases hk : k' = k
    · simp only [dictDel, hk, if_true]
      rw [dictGet_eq_none_iff]
      exact hk ▸ h.1
    · simp only [dictDel, hk, if_false, dictGet]
      exact ih h.2

theorem dictGet_map (l : List String) (g : String → β) (k : String) :
    dictGet (l.map fun k => (k, g k)) k =
      if k ∈ l then some (g k) else none := by
  induction l with
  | nil => simp [dictGet]
  | cons hd tl ih =>
    by_cases h : hd = k
    · simp [dictGet, h]
    · simp only [List.map_cons, dictGet, h, if_false, ih, List.mem_cons]
      rw [if_congr (or_iff_right fun he => h he.symm) rfl rfl]

/-! ### Cache-level preservation lemmas -/

/-- A successful `set` on an enabled cache leaves the fresh entry under its
key, keeps the configuration, and keeps the keys distinct. -/
theorem set_some_spec (c c' : TTLCache α) (K : String) (V : α) (t0 : Int)
    (hen : c.enabled = true) (hset : c.set K V t0 = some c') :
    dictGet c'.store K = some ⟨V, t0⟩ ∧ c'.ttl = c.ttl ∧
    c'.enabled = true ∧ c'.max_size = c.max_size ∧
    (keysNodup c.store → keysNodup c'.store) := by
  unfold TTLCache.set at hset
  rw [if_neg (by simp [hen])] at hset
  by_cases hcond :
      (c.store.length ≥ c.max_size && !containsKey c.store K) = true
  · rw [if_pos hcond] at hset
    cases hs : c.store with
    | nil =>
      rw [hs] at hset
      cases hset
    | cons hd tl =>
      obtain ⟨k0, e0⟩ := hd
      rw [hs] at hset
      obtain rfl := Option.some.inj hset
      refine ⟨dictGet_dictSet_self _ K _, rfl, hen, rfl, fun hnd => ?_⟩
      exact keysNodup_dictSet _ K _ (keysNodup_dictDel _ k0 hnd)
  · rw [if_neg hcond] at hset
    obtain rfl := Option.some.inj hset
    exact ⟨dictGet_dictSet_self _ K _, rfl, hen, rfl,
      fun hnd => keysNodup_dictSet _ K _ hnd⟩

/-- Every branch of `set` keeps the cache configuration. -/
theorem set_some_config (c c' : TTLCache α) (k : String) (v : α) (now : Int)
    (hset : c.set k v now = some c') :
    c'.ttl = c.ttl ∧ c'.enabled = c.enabled ∧ c'.max_size = c.max_size := by
  unfold TTLCache.set at hset
  split at hset
  · obtain rfl := Option.some.inj hset
    exact ⟨rfl, rfl, rfl⟩
  · split at hset
    · split at hset
      · cases hset
      · obtain rfl := Option.some.inj hset
        exact ⟨rfl, rfl, rfl⟩
    · obtain rfl := Option.some.inj hset
      exact ⟨rfl, rfl, rfl⟩

/-- Every branch of `set` keeps the keys of the store distinct. -/
theorem set_some_keysNodup (c c' : TTLCache α) (k : String) (v : α)
    (now : Int) (hset : c.set k v now = some c') (h : keysNodup c.store) :
    keysNodup c'.store := by
  unfold TTLCache.set at hset
  split at hset
  · obtain rfl := Option.some.inj hset
    exact h
  · split at hset
    · split at hset
      · cases hset
      · next k0 e0 tl heq =>
        obtain rfl := Option.some.inj hset
        exact keysNodup_dictSet _ k _ (keysNodup_dictDel _ k0 h)
    · obtain rfl := Option.some.inj hset
      exact keysNodup_dictSet _ k _ h

/-- One cache operation keeps the configuration fields. -/
theorem apply_config (op : CacheOp α) (c : TTLCache α) :
    (op.apply c).ttl = c.ttl ∧ (op.apply c).enabled = c.enabled ∧
    (op.apply c).max_size = c.max_size := by
  cases op with
  | get key now =>
    simp only [CacheOp.apply]
    unfold TTLCache.get
    cases hc : c.enabled
    · simp [hc]
    · simp only [Bool.not_true, Bool.false_eq_true, if_false]
      cases dictGet c.store key with
      | none => simp
      | some entry =>
        by_cases hexp : entry.is_expired c.ttl now = true <;> simp [hexp]
  | set key value now =>
    simp only [CacheOp.apply]
    cases hset : c.set key value now with
    | none => simp
    | some c' =>
      simpa using set_some_config c c' key value now hset
  | invalidate prefs =>
    simp only [CacheOp.apply]
    unfold TTLCache.invalidate
    cases hc : c.enabled <;> simp [hc]
  | clear =>
    exact ⟨rfl, rfl, rfl⟩

/-- One cache operation keeps the keys of the store distinct. -/
theorem apply_keysNodup (op : CacheOp α) (c : TTLCache α)
    (h : keysNodup c.store) : keysNodup ((op.apply c).store) := by
  cases op with
  | get key now =>
    simp only [CacheOp.apply]
    unfold TTLCache.get
    cases hc : c.enabled
    · simpa using h
    · simp only [Bool.not_true, Bool.false_eq_true, if_false]
      cases dictGet c.store key with
      | none => simpa using h
      | some entry =>
        by_cases hexp : entry.is_expired c.ttl now = true <;> simp [hexp]
        · exact keysNodup_dictDel _ key h
        · exact h
  | set key value now =>
    simp only [CacheOp.apply]
    cases hset : c.set key value now with
    | none => simpa using h
    | some c' => simpa using set_some_keysNodup c c' key value now hset h
  | invalidate prefs =>
    simp only [CacheOp.apply]
    unfold TTLCache.invalidate
    cases hc : c.enabled
    · simpa using h
    · simp only [Bool.not_true, Bool.false_eq_true, if_false]
      exact ((List.filter_sublist _).map Prod.fst).nodup h
  | clear =>
    simp [CacheOp.apply, TTLCache.clear, keysNodup, storeKeys]

/-- A sequence of cache operations keeps the configuration fields. -/
theorem applyOps_config (ops : List (CacheOp α)) :
    ∀ c : TTLCache α,
      (applyOps ops c).ttl = c.ttl ∧ (applyOps ops c).enabled = c.enabled ∧
      (applyOps ops c).max_size = c.max_size := by
  induction ops with
  | nil => intro c; exact ⟨rfl, rfl, rfl⟩
  | cons op ops ih =>
    intro c
    have hstep : applyOps (op :: ops) c = applyOps ops (op.apply c) := by
      simp [applyOps]
    rw [hstep]
    obtain ⟨h1, h2, h3⟩ := ih (op.apply c)
    obtain ⟨g1, g2, g3⟩ := apply_config op c
    exact ⟨h1.trans g1, h2.trans g2, h3.trans g3⟩

/-- A sequence of cache operations keeps the keys of the store distinct. -/
theorem applyOps_keysNodup (ops : List (CacheOp α)) :
    ∀ c : TTLCache α, keysNodup c.store →
      keysNodup ((applyOps ops c).store) := by
  induction ops with
  | nil => intro c h; exact h
  | cons op ops ih =>
    intro c h
    have hstep : applyOps (op :: ops) c = applyOps ops (op.apply c) := by
      simp [applyOps]
    rw [hstep]
    exact ih (op.apply c) (apply_keysNodup op c h)

/-- C5: on an enabled cache, a value set under key K at time t0 — with no
intervening operation touching K's entry — is returned unchanged by a `get`
at any t1 with t1 - t0 ≤ ttl (age exactly equal to the TTL is fresh, since
expiry uses strict greater-than), and a `get` at any t1 with t1 - t0 > ttl
returns absent and removes the expired entry from the store. -/
theorem cacheTTLBoundary (c c' : TTLCache α) (K : String) (V : α)
    (t0 t1 : Int) (ops : List (CacheOp α))
    (hen : c.enabled = true)
    (hnd : keysNodup c.store)
    (hset : c.set K V t0 = some c')
    (hK : dictGet (applyOps ops c').store K = dictGet c'.store K) :
    (t1 - t0 ≤ c.ttl →
      ((applyOps ops c').get K t1).1 = some V)
    ∧ (t1 - t0 > c.ttl →
        ((applyOps ops c').get K t1).1 = none ∧
        dictGet (((applyOps ops c').get K t1).2).store K = none) := by
  obtain ⟨hget, httl, hen', hmax, hndf⟩ := set_some_spec c c' K V t0 hen hset
  obtain ⟨dttl, denb, dmax⟩ := applyOps_config ops c'
  have hdnd : keysNodup (applyOps ops c').store :=
    applyOps_keysNodup ops c' (hndf hnd)
  have hdget : dictGet (applyOps ops c').store K = some ⟨V, t0⟩ :=
    hK.trans hget
  have henb : (applyOps ops c').enabled = true := denb.trans hen'
  have httl_eq : (applyOps ops c').ttl = c.ttl := dttl.trans httl
  constructor
  · intro hfresh
    have hexp : (⟨V, t0⟩ : CacheEntry α).is_expired (applyOps ops c').ttl t1
        = false := by
      simp only [CacheEntry.is_expired, httl_eq, decide_eq_false_iff_not,
        not_lt]
      omega
    unfold TTLCache.get
    simp [henb, hdget, hexp]
  · intro hstale
    have hexp : (⟨V, t0⟩ : CacheEntry α).is_expired (applyOps ops c').ttl t1
        = true := by
      simp only [CacheEntry.is_expired, httl_eq, decide_eq_true_eq]
      omega
    unfold TTLCache.get
    simp only [henb, Bool.not_true, Bool.false_eq_true, if_false, hdget,
      hexp, if_true]
    exact ⟨trivial, dictGet_dictDel_self _ K hdnd⟩

/-- Witness for C5 on a concrete cache with TTL 30: get at exactly age 30 is
fresh, get at age 31 misses and purges the entry. -/
theorem cacheTTLBoundary_witness :
    (((applyOps [CacheOp.set "other" 1 2]
        ({ store := [("k", ⟨7, 0⟩)], ttl := 30, max_size := 5
           enabled := true, hits := 0, misses := 0 } :
          TTLCache Nat)).get "k" 30).1 = some 7) ∧
    (((applyOps [CacheOp.set "other" 1 2]
        ({ store := [("k", ⟨7, 0⟩)], ttl := 30, max_size := 5
           enabled := true, hits := 0, misses := 0 } :
          TTLCache Nat)).get "k" 31).1 = none) :=
  ⟨(cacheTTLBoundary (TTLCache.init 30 5 true)
      { store := [("k", ⟨7, 0⟩)], ttl := 30, max_size := 5
        enabled := true, hits := 0, misses := 0 }
      "k" 7 0 30 [CacheOp.set "other" 1 2]
      rfl (by decide) (by decide) (by decide)).1 (by decide),
   ((cacheTTLBoundary (TTLCache.init 30 5 true)
      { store := [("k", ⟨7, 0⟩)], ttl := 30, max_size := 5
        enabled := true, hits := 0, misses := 0 }
      "k" 7 0 31 [CacheOp.set "other" 1 2]
      rfl (by decide) (by decide) (by decide)).2 (by decide)).1⟩

/-- Writing a fresh key appends it at the back of the store. -/
theorem dictSet_append_of_not_contains (s : List (String × β)) (k : String)
    (v : β) (h : containsKey s k = false) :
    dictSet s k v = s ++ [(k, v)] := by
  induction s with
  | nil => simp [dictSet]
  | cons hd tl ih =>
    obtain ⟨k', v'⟩ := hd
    simp [containsKey] at h
    simp [dictSet, h.1, ih (by simpa using h.2)]

/-- The keys of a store built by pairing a key list with values. -/
theorem storeKeys_map_pair (l : List String) (g : String → β) :
    storeKeys (l.map fun k => (k, g k)) = l := by
  simp only [storeKeys, List.map_map]
  exact List.map_id l

/-- One cache operation keeps the store within `max_size` entries. -/
theorem apply_size_le (op : CacheOp α) (c : TTLCache α)
    (hle : c.store.length ≤ c.max_size) :
    ((op.apply c).store).length ≤ c.max_size := by
  cases op with
  | get key now =>
    simp only [CacheOp.apply]
    unfold TTLCache.get
    cases hc : c.enabled
    · simpa using hle
    · simp only [Bool.not_true, Bool.false_eq_true, if_false]
      cases dictGet c.store key with
      | none => simpa using hle
      | some entry =>
        by_cases hexp : entry.is_expired c.ttl now = true <;> simp [hexp]
        · exact le_trans (dictDel_length_le _ _) hle
        · exact hle
  | set key value now =>
    simp only [CacheOp.apply]
    cases hset : c.set key value now with
    | none => simpa using hle
    | some c' =>
      simp only [Option.getD_some]
      unfold TTLCache.set at hset
      split at hset
      · obtain rfl := Option.some.inj hset
        exact hle
      · split at hset
        · next hcond =>
          split at hset
          · cases hset
          · next k0 e0 tl heq =>
            obtain rfl := Option.some.inj hset
            have hcond' := hcond
            simp only [Bool.and_eq_true] at hcond'
            obtain ⟨hge, hckf⟩ := hcond'
            have hck : containsKey c.store key = false := by
              simpa using hckf
            have hdel : dictDel c.store k0 = tl := by
              rw [heq]
              simp [dictDel]
            have hcktl : containsKey tl key = false := by
              rw [heq] at hck
              simp [containsKey] at hck
              simpa using hck.2
            simp only [hdel]
            rw [dictSet_length, if_neg (by simp [hcktl])]
            have hlen : c.store.length = tl.length + 1 := by
              rw [heq]
              simp
            omega
        · next hcond =>
          obtain rfl := Option.some.inj hset
          rw [dictSet_length]
          by_cases hck : containsKey c.store key = true
          · rw [if_pos hck]
            exact hle
          · rw [if_neg hck]
            have hlt : c.store.length < c.max_size := by
              rcases Nat.lt_or_ge c.store.length c.max_size with h | h
              · exact h
              · exfalso
                apply hcond
                rw [Bool.and_eq_true]
                refine ⟨decide_eq_true h, ?_⟩
                simpa using hck
            omega
  | invalidate prefs =>
    simp only [CacheOp.apply]
    unfold TTLCache.invalidate
    cases hc : c.enabled
    · simpa using hle
    · simp only [Bool.not_true, Bool.false_eq_true, if_false]
      exact le_trans (List.length_filter_le _ _) hle
  | clear =>
    simp [CacheOp.apply, TTLCache.clear]

/-- A sequence of cache operations keeps the store within `max_size`
entries. -/
theorem applyOps_size_le (ops : List (CacheOp α)) :
    ∀ c : TTLCache α, c.store.length ≤ c.max_size →
      ((applyOps ops c).store).length ≤ c.max_size := by
  induction ops with
  | nil => intro c h; exact h
  | cons op ops ih =>
    intro c h
    have hstep : applyOps (op :: ops) c = applyOps ops (op.apply c) := by
      simp [applyOps]
    rw [hstep]
    have hmax : (op.apply c).max_size = c.max_size := (apply_config op c).2.2
    have := ih (op.apply c) (by rw [hmax]; exact apply_size_le op c h)
    rw [hmax] at this
    exact this

/-- A key absent from the key list is absent from the paired store. -/
theorem containsKey_map_pair_eq_false (l : List String) (g : String → β)
    (k : String) (h : k ∉ l) :
    containsKey (l.map fun k => (k, g k)) k = false := by
  cases hcc : containsKey (l.map fun k => (k, g k)) k
  · rfl
  · exact absurd
      (by simpa [storeKeys_map_pair] using (containsKey_eq_mem _ k).mp hcc) h

/-- Folding `set` over fresh, pairwise-distinct keys: the store is always
exactly the suffix (by first-insertion order) of the processed keys that
fits in `max_size`. -/
theorem applyOps_sets_fifo (vf : String → α) (t : Int) :
    ∀ (ks : List String) (c : TTLCache α) (l : List String),
      c.enabled = true → 1 ≤ c.max_size →
      c.store = l.map (fun k => (k, ⟨vf k, t⟩)) →
      l.length ≤ c.max_size →
      (l ++ ks).Nodup →
      (applyOps (ks.map fun k => CacheOp.set k (vf k) t) c).store =
        ((l ++ ks).drop ((l ++ ks).length - c.max_size)).map
          (fun k => (k, ⟨vf k, t⟩)) := by
  intro ks
  induction ks with
  | nil =>
    intro c l hen hm hstore hlen hnd
    simp only [List.map_nil, applyOps, List.foldl_nil, List.append_nil]
    rw [hstore]
    have hz : l.length - c.max_size = 0 := by omega
    rw [hz, List.drop_zero]
  | cons k ks ih =>
    intro c l hen hm hstore hlen hnd
    have hstep :
        applyOps ((k :: ks).map fun k => CacheOp.set k (vf k) t) c =
          applyOps (ks.map fun k => CacheOp.set k (vf k) t)
            ((CacheOp.set k (vf k) t).apply c) := by
      simp [applyOps]
    rw [hstep]
    have hkl : k ∉ l := fun hk =>
      (List.disjoint_of_nodup_append hnd) hk (List.mem_cons_self k ks)
    have hck : containsKey c.store k = false := by
      rw [hstore]
      exact containsKey_map_pair_eq_false l _ k hkl
    have hcslen : c.store.length = l.length := by
      rw [hstore]
      simp
    by_cases hfull : c.max_size ≤ l.length
    · -- at capacity: evict the oldest key, then append
      have hleq : l.length = c.max_size := le_antisymm hlen hfull
      cases l with
      | nil =>
        simp at hleq
        omega
      | cons k0 l'' =>
        have hkl'' : k ∉ l'' := fun h => hkl (List.mem_cons_of_mem k0 h)
        have hstlen : c.store.length = l''.length + 1 := by
          rw [hcslen]
          simp
        have hml : c.max_size = l''.length + 1 := by
          simp at hleq
          omega
        have happly : (CacheOp.set k (vf k) t).apply c =
            { c with store := ((l'' ++ [k]).map fun k => (k, (⟨vf k, t⟩ : CacheEntry α))) } := by
          simp only [CacheOp.apply]
          unfold TTLCache.set
          rw [if_neg (by simp [hen])]
          rw [if_pos (by
            simp only [Bool.and_eq_true, decide_eq_true_eq, ge_iff_le]
            exact ⟨by omega, by simp [hck]⟩)]
          rw [hstore]
          simp only [List.map_cons]
          have hdel :
              dictDel ((k0, (⟨vf k0, t⟩ : CacheEntry α)) ::
                  l''.map (fun k => (k, ⟨vf k, t⟩))) k0 =
                l''.map (fun k => (k, ⟨vf k, t⟩)) := by
            simp [dictDel]
          rw [hdel,
            dictSet_append_of_not_contains _ _ _
              (containsKey_map_pair_eq_false l'' _ k hkl'')]
          simp [List.map_append]
        rw [happly]
        have hnd'' : ((l'' ++ [k]) ++ ks).Nodup := by
          have h1 : (k0 :: l'' ++ k :: ks).Nodup := hnd
          have h2 : (l'' ++ k :: ks).Nodup := by
            simp only [List.cons_append, List.nodup_cons] at h1
            exact h1.2
          simpa [List.append_assoc] using h2
        rw [ih { c with store := ((l'' ++ [k]).map fun k => (k, (⟨vf k, t⟩ : CacheEntry α))) }
          (l'' ++ [k]) hen hm rfl (by simp; omega) hnd'']
        have hassoc : (l'' ++ [k]) ++ ks = l'' ++ k :: ks := by simp
        rw [hassoc]
        have hlen'' : l''.length + 1 = c.max_size := by
          simp at hleq
          omega
        have h2 : (k0 :: l'') ++ k :: ks = k0 :: (l'' ++ k :: ks) := by simp
        rw [h2]
        have hd1 : (l'' ++ k :: ks).length - c.max_size = ks.length := by
          simp
          omega
        have hd2 : (k0 :: (l'' ++ k :: ks)).length - c.max_size =
            ks.length + 1 := by
          simp
          omega
        rw [hd1, hd2, List.drop_succ_cons]
    · -- room available: plain append, no eviction
      have happly : (CacheOp.set k (vf k) t).apply c =
          { c with store := ((l ++ [k]).map fun k => (k, (⟨vf k, t⟩ : CacheEntry α))) } := by
        simp only [CacheOp.apply]
        unfold TTLCache.set
        rw [if_neg (by simp [hen])]
        rw [if_neg (by
          simp only [Bool.and_eq_true, decide_eq_true_eq, ge_iff_le]
          rintro ⟨hge, -⟩
          omega)]
        rw [dictSet_append_of_not_contains _ _ _ hck, hstore]
        simp [List.map_append]
      rw [happly]
      have hnd' : ((l ++ [k]) ++ ks).Nodup := by
        simpa [List.append_assoc] using hnd
      rw [ih { c with store := ((l ++ [k]).map fun k => (k, (⟨vf k, t⟩ : CacheEntry α))) }
        (l ++ [k]) hen hm rfl (by simp; omega) hnd']
      have hassoc : (l ++ [k]) ++ ks = l ++ k :: ks := by simp
      rw [hassoc]

/-- C6: from an empty enabled cache with `max_size ≥ 1`: (a) the store never
exceeds `max_size` entries after any sequence of get/set/invalidate/clear;
(b) folding `set` over N > `max_size` distinct fresh keys leaves exactly the
most recent `max_size` keys by first-insertion order (FIFO eviction of the
single oldest entry per overflowing insert), each still retrievable, while
the earliest N - `max_size` keys are gone; (c) a `set` of an
already-present key succeeds without evicting and leaves the key sequence —
hence the size and every key's eviction-order position — unchanged. -/
theorem cacheFifoCapacity (ttl : Int) (m : Nat) (vf : String → α) (t : Int)
    (ks : List String) (hm : 1 ≤ m) (httl : 0 ≤ ttl) (hnd : ks.Nodup)
    (hN : m < ks.length) :
    (∀ ops : List (CacheOp α),
      ((applyOps ops (TTLCache.init ttl m true)).store).length ≤ m)
    ∧ ((applyOps (ks.map fun k => CacheOp.set k (vf k) t)
          (TTLCache.init ttl m true)).store =
        ((ks.drop (ks.length - m)).map fun k => (k, ⟨vf k, t⟩)))
    ∧ (∀ k ∈ ks.drop (ks.length - m),
        ((applyOps (ks.map fun k => CacheOp.set k (vf k) t)
            (TTLCache.init ttl m true)).get k t).1 = some (vf k))
    ∧ (∀ k ∈ ks.take (ks.length - m),
        ((applyOps (ks.map fun k => CacheOp.set k (vf k) t)
            (TTLCache.init ttl m true)).get k t).1 = none)
    ∧ (∀ (c : TTLCache α) (k : String) (v : α) (now : Int),
        c.enabled = true → containsKey c.store k = true →
        c.set k v now =
          some { c with store := dictSet c.store k ⟨v, now⟩ } ∧
        storeKeys (dictSet c.store k ⟨v, now⟩) = storeKeys c.store) := by
  have hstore : (applyOps (ks.map fun k => CacheOp.set k (vf k) t)
      (TTLCache.init (α := α) ttl m true)).store =
      ((ks.drop (ks.length - m)).map fun k => (k, ⟨vf k, t⟩)) := by
    have := applyOps_sets_fifo vf t ks (TTLCache.init ttl m true) []
      rfl hm (by simp [TTLCache.init]) (by simp) (by simpa using hnd)
    simpa using this
  obtain ⟨httl', henb', -⟩ :=
    applyOps_config (ks.map fun k => CacheOp.set k (vf k) t)
      (TTLCache.init (α := α) ttl m true)
  have httl2 : (applyOps (ks.map fun k => CacheOp.set k (vf k) t)
      (TTLCache.init (α := α) ttl m true)).ttl = ttl := httl'
  have henb2 : (applyOps (ks.map fun k => CacheOp.set k (vf k) t)
      (TTLCache.init (α := α) ttl m true)).enabled = true := henb'
  refine ⟨fun ops => ?_, hstore, fun k hk => ?_, fun k hk => ?_,
    fun c k v now hen hck => ⟨?_, ?_⟩⟩
  · exact applyOps_size_le ops (TTLCache.init ttl m true) (by simp [TTLCache.init])
  · have hdg : dictGet (applyOps (ks.map fun k => CacheOp.set k (vf k) t)
        (TTLCache.init (α := α) ttl m true)).store k = some ⟨vf k, t⟩ := by
      rw [hstore, dictGet_map, if_pos hk]
    have hexp : (⟨vf k, t⟩ : CacheEntry α).is_expired
        (applyOps (ks.map fun k => CacheOp.set k (vf k) t)
          (TTLCache.init (α := α) ttl m true)).ttl t = false := by
      simp only [CacheEntry.is_expired, httl2, decide_eq_false_iff_not,
        not_lt]
      omega
    unfold TTLCache.get
    simp [henb2, hdg, hexp]
  · have hknot : k ∉ ks.drop (ks.length - m) := fun hmem =>
      List.disjoint_take_drop hnd (le_refl (ks.length - m)) hk hmem
    have hdg : dictGet (applyOps (ks.map fun k => CacheOp.set k (vf k) t)
        (TTLCache.init (α := α) ttl m true)).store k = none := by
      rw [hstore, dictGet_map, if_neg hknot]
    unfold TTLCache.get
    simp [henb2, hdg]
  · unfold TTLCache.set
    rw [if_neg (by simp [hen])]
    rw [if_neg (by simp [hck])]
  · exact storeKeys_dictSet_of_contains c.store k ⟨v, now⟩ hck

/-- Witness for C6 with `max_size = 2` and three distinct keys: the first
key is evicted, the last two remain; updating a present key keeps the key
sequence. -/
theorem cacheFifoCapacity_witness :
    ((applyOps (["a", "bb", "ccc"].map fun k =>
          CacheOp.set k k.length (0 : Int))
        (TTLCache.init (α := Nat) 10 2 true)).store =
      ((["a", "bb", "ccc"].drop (["a", "bb", "ccc"].length - 2)).map
        fun k => (k, ⟨k.length, 0⟩))) ∧
    (({ store := [("x", ⟨1, 0⟩), ("y", ⟨2, 0⟩)], ttl := 10, max_size := 2
        enabled := true, hits := 0, misses := 0 } : TTLCache Nat).set
          "x" 9 5 =
        some { store := dictSet [("x", (⟨1, 0⟩ : CacheEntry Nat)), ("y", ⟨2, 0⟩)] "x" ⟨9, 5⟩
               ttl := 10, max_size := 2, enabled := true
               hits := 0, misses := 0 } ∧
      storeKeys (dictSet [("x", (⟨1, 0⟩ : CacheEntry Nat)), ("y", ⟨2, 0⟩)] "x" ⟨9, 5⟩) =
        storeKeys [("x", (⟨1, 0⟩ : CacheEntry Nat)), ("y", ⟨2, 0⟩)]) :=
  ⟨(cacheFifoCapacity 10 2 (fun k => k.length) 0 ["a", "bb", "ccc"]
      (by decide) (by decide) (by decide) (by decide)).2.1,
   (cacheFifoCapacity 10 2 (fun k => k.length) 0 ["a", "bb", "ccc"]
      (by decide) (by decide) (by decide) (by decide)).2.2.2.2
     { store := [("x", ⟨1, 0⟩), ("y", ⟨2, 0⟩)], ttl := 10, max_size := 2
       enabled := true, hits := 0, misses := 0 }
     "x" 9 5 rfl (by decide)⟩

end Funds
